import Mathlib

/-!
Verification of the periodic-task scheduling core (celery/beat.py)

Shallow embedding of the scheduling engine in `src/celery/beat.py`:

* `ScheduleEntry` (beat.py lines 36-60) with its constructor and the
  advancing operation `next`;
* the `Scheduler` engine (lines 63-151): `tick`, `get_task`, `is_due`,
  `apply_async`, `schedule_registry` and `cleanup`;
* the shutdown finalization of `ClockService.start` / `ClockService.stop`
  (lines 154-207), modelled as explicit state passing over `ClockState`.

Timestamps are natural numbers; each pass receives the clock reading `now`
explicitly where the source calls `datetime.now()`.  Dictionaries
(`self.schedule`, the task registry) are association lists; the registry is
read-only during a pass, exactly as in the source.  Exceptions are
`Except` values; `tick` aborts with the error and the schedule state at the
moment the exception was raised, mirroring the uncaught propagation out of
the `for` loop in `Scheduler.tick`.
-/

/-- An entry in the scheduler (beat.py lines 36-49). -/
structure ScheduleEntry where
  name : String
  last_run_at : Nat
  total_run_count : Nat
deriving Repr, DecidableEq

/-- `ScheduleEntry.__init__` (lines 46-49): `last_run_at or datetime.now()`
and `total_run_count or 0`.  `now` is the value `datetime.now()` would
return. -/
def ScheduleEntry.init (now : Nat) (name : String) (last_run_at : Option Nat)
    (total_run_count : Option Nat) : ScheduleEntry :=
  ScheduleEntry.mk name (last_run_at.getD now) (total_run_count.getD 0)

/-- `ScheduleEntry.next` (lines 51-56): a new instance with the date and
count fields updated. -/
def ScheduleEntry.next (e : ScheduleEntry) (now : Nat) : ScheduleEntry :=
  ScheduleEntry.init now e.name (some now) (some (e.total_run_count + 1))

/-- A periodic task definition as the scheduler sees it: a name, the due
predicate `is_due(last_run_at) -> (is_due, next_time_to_run)`, the outcome
of `apply_async()` (a task id, or the message of the exception it raises),
and whether the task is periodic (i.e. listed by `get_all_periodic`). -/
structure TaskDef where
  name : String
  is_due : Nat → Bool × Option Nat
  apply_async : Except String Nat
  periodic : Bool

/-- `ScheduleEntry.is_due` (lines 58-60): delegates to the task. -/
def ScheduleEntry.is_due (e : ScheduleEntry) (task : TaskDef) : Bool × Option Nat :=
  task.is_due e.last_run_at

/-- The task registry: a mapping from task name to task definition. -/
abbrev Registry := List (String × TaskDef)

/-- The schedule dictionary: a mapping from task name to entry. -/
abbrev Schedule := List (String × ScheduleEntry)

/-- `self.registry[name]` as an `Option`. -/
def registryGet (reg : Registry) (name : String) : Option TaskDef :=
  (reg.find? (fun p => p.1 == name)).map Prod.snd

/-- `name in self.registry`. -/
def registryContains (reg : Registry) (name : String) : Bool :=
  reg.any (fun p => p.1 == name)

/-- `self.registry.get_all_periodic()`. -/
def get_all_periodic (reg : Registry) : Registry :=
  reg.filter (fun p => p.2.periodic)

/-- `self.schedule[k]` as an `Option`. -/
def lookupEntry (sch : Schedule) (k : String) : Option ScheduleEntry :=
  (sch.find? (fun p => p.1 == k)).map Prod.snd

/-- `k in self.schedule`. -/
def hasKey (sch : Schedule) (k : String) : Bool :=
  sch.any (fun p => p.1 == k)

/-- `self.schedule[k] = v`: replace the value at an existing key, insert the
pair otherwise. -/
def setValue : Schedule → String → ScheduleEntry → Schedule
  | [], k, v => [(k, v)]
  | p :: rest, k, v => if p.1 == k then (k, v) :: rest else p :: setValue rest k v

/-- `self.schedule.setdefault(k, v)` (its effect on the dictionary). -/
def setdefault (sch : Schedule) (k : String) (v : ScheduleEntry) : Schedule :=
  if hasKey sch k then sch else sch ++ [(k, v)]

/-- Number of pairs stored under key `k` (1 or 0 for dictionary-like
states). -/
def keyCount (sch : Schedule) (k : String) : Nat :=
  (sch.filter (fun p => p.1 == k)).length

/-- The exceptions the engine raises: `NotRegistered(name)` (beat.py line
113) and `SchedulingError` with its formatted message parts (lines
129-131). -/
inductive BeatError where
  | notRegistered (name : String)
  | schedulingError (taskName : String) (cause : String)
deriving Repr, DecidableEq

/-- The scheduler (lines 63-90): a registry, the schedule dictionary and
`max_interval`. -/
structure Scheduler where
  registry : Registry
  schedule : Schedule
  max_interval : Nat

/-- `Scheduler.get_task` (lines 109-113): registry lookup, raising
`NotRegistered(name)` on a missing key. -/
def Scheduler.get_task (reg : Registry) (name : String) : Except BeatError TaskDef :=
  match registryGet reg name with
  | some task => Except.ok task
  | none => Except.error (BeatError.notRegistered name)

/-- `Scheduler.is_due` (lines 115-116): `entry.is_due(self.get_task(entry.name))`. -/
def Scheduler.is_due (reg : Registry) (e : ScheduleEntry) :
    Except BeatError (Bool × Option Nat) :=
  match Scheduler.get_task reg e.name with
  | Except.ok task => Except.ok (e.is_due task)
  | Except.error err => Except.error err

/-- The mutable state threaded through one `tick` pass: the schedule
dictionary, the `remaining_times` accumulator (line 95), and the ghost
trace of names for which the dispatch operation `task.apply_async()` was
invoked. -/
structure TickState where
  schedule : Schedule
  remaining_times : List Nat
  dispatches : List String
deriving Repr, DecidableEq

/-- `Scheduler.apply_async` (lines 118-132).  The entry is advanced and
stored in the schedule before the dispatch is attempted; a dispatch
exception is wrapped as `SchedulingError` with the task name and cause.
The second component is the returned result or the raised error; the
first component is the state after the call, whichever way it ended. -/
def Scheduler.apply_async (reg : Registry) (now : Nat) (e : ScheduleEntry)
    (st : TickState) : TickState × Except BeatError Nat :=
  let entry := e.next now
  let st1 : TickState := { st with schedule := setValue st.schedule entry.name entry }
  match Scheduler.get_task reg entry.name with
  | Except.error err => (st1, Except.error err)
  | Except.ok task =>
      let st2 : TickState := { st1 with dispatches := st1.dispatches ++ [entry.name] }
      match task.apply_async with
      | Except.ok result => (st2, Except.ok result)
      | Except.error exc =>
          (st2, Except.error (BeatError.schedulingError task.name exc))

/-- Python truthiness of `next_time_to_run`: `None` and `0` are falsy. -/
def truthy (t : Option Nat) : Bool :=
  match t with
  | none => false
  | some v => v != 0

/-- `if next_time_to_run: remaining_times.append(next_time_to_run)`
(lines 104-105). -/
def collectStep (next_time_to_run : Option Nat) (st : TickState) : TickState :=
  if truthy next_time_to_run then
    { st with remaining_times := st.remaining_times ++ [next_time_to_run.getD 0] }
  else st

/-- The `for entry in self.schedule.values()` loop of `Scheduler.tick`
(lines 96-105), over the snapshot of entries taken when the loop starts.
An uncaught exception aborts the loop, carrying the state at that point. -/
def Scheduler.tickLoop (reg : Registry) (now : Nat) :
    List ScheduleEntry → TickState → Except (BeatError × TickState) TickState
  | [], st => Except.ok st
  | e :: rest, st =>
      match Scheduler.is_due reg e with
      | Except.error err => Except.error (err, st)
      | Except.ok (due, next_time_to_run) =>
          if due then
            match Scheduler.apply_async reg now e st with
            | (st1, Except.ok _) =>
                Scheduler.tickLoop reg now rest (collectStep next_time_to_run st1)
            | (st1, Except.error err) => Except.error (err, st1)
          else Scheduler.tickLoop reg now rest (collectStep next_time_to_run st)

/-- `Scheduler.tick` (lines 92-107): run the loop, then return
`min(remaining_times + [self.max_interval])` together with the final
state; or propagate the uncaught exception with the state it left
behind. -/
def Scheduler.tick (s : Scheduler) (now : Nat) :
    Except (BeatError × TickState) (Nat × TickState) :=
  match Scheduler.tickLoop s.registry now (s.schedule.map Prod.snd)
      (TickState.mk s.schedule [] []) with
  | Except.error p => Except.error p
  | Except.ok st => Except.ok (st.remaining_times.foldr min s.max_interval, st)

/-- `Scheduler.schedule_registry` (lines 134-142): `setdefault` a fresh
entry for every periodic task in the registry. -/
def Scheduler.schedule_registry (s : Scheduler) (now : Nat) : Scheduler :=
  { s with schedule :=
      ((get_all_periodic s.registry).foldl
        (fun sch p => setdefault sch p.1 (ScheduleEntry.init now p.2.name none none))
        s.schedule) }

/-- `Scheduler.cleanup` (lines 144-147): pop every schedule key that is not
in the registry. -/
def Scheduler.cleanup (s : Scheduler) : Scheduler :=
  { s with schedule := s.schedule.filter (fun p => registryContains s.registry p.1) }

/-!
ClockService shutdown model (beat.py lines 154-207)

`ClockService.start` opens the shelve, runs the tick loop and, on any exit
path, runs the closure `_stop` (lines 180-187), guarded by the `synced`
cell.  `ClockState` records the guard, whether `self._stopped` has been
set, and how many `sync()` / `close()` calls have completed on the store.
`_stop` takes the outcomes of `schedule.sync()` and `schedule.close()` as
booleans (`false` means the call raises); the returned flag reports
whether the closure raised. -/
structure ClockState where
  synced : Bool
  stoppedSet : Bool
  syncs : Nat
  closes : Nat
deriving Repr, DecidableEq

/-- The state of `ClockService.start` right before the tick loop. -/
def initClock : ClockState := ClockState.mk false false 0 0

/-- The `_stop` closure (lines 181-187): if the guard is clear, sync the
store, close it, set the guard and set `self._stopped`.  A failing
`sync()` or `close()` raises out of the closure before the guard or the
stopped flag is touched. -/
def ClockService.stopOnce (syncOk closeOk : Bool) (st : ClockState) : ClockState × Bool :=
  if st.synced then (st, false)
  else if syncOk = false then (st, true)
  else if closeOk = false then ({ st with syncs := st.syncs + 1 }, true)
  else (ClockState.mk true true (st.syncs + 1) (st.closes + 1), false)

/-- How the tick loop in `ClockService.start` terminated: the shutdown flag
was observed (`break`), a `KeyboardInterrupt`/`SystemExit` arrived, or an
unhandled exception escaped `scheduler.tick()`. -/
inductive ExitKind where
  | shutdown : ExitKind
  | interrupt : ExitKind
  | crashed : ExitKind
deriving Repr, DecidableEq

/-- The exit structure of `ClockService.start` (lines 192-203): on
interrupt the `except` clause calls `_stop()` and then the `finally`
clause calls it again; every other exit runs `_stop()` once, in
`finally`.  The boolean reports whether `start` propagates an exception
raised by the closure itself. -/
def ClockService.runFinalization (syncOk closeOk : Bool) (ex : ExitKind)
    (st : ClockState) : ClockState × Bool :=
  match ex with
  | ExitKind.interrupt =>
      let r1 := ClockService.stopOnce syncOk closeOk st
      let r2 := ClockService.stopOnce syncOk closeOk r1.1
      (r2.1, r1.2 || r2.2)
  | _ => ClockService.stopOnce syncOk closeOk st

/-- Any sequence of `_stop` invocations, each with its own store
outcomes: the reachable states of the finalization guard. -/
def runStops : List (Bool × Bool) → ClockState → ClockState
  | [], st => st
  | p :: rest, st => runStops rest (ClockService.stopOnce p.1 p.2 st).1

/-- `ClockService.stop` (lines 205-207): sets the shutdown flag and, when
`wait` is true, blocks on `self._stopped`.  The result says whether the
call returns rather than blocks in the given clock state. -/
def ClockService.stopReturns (wait : Bool) (st : ClockState) : Bool :=
  !wait || st.stoppedSet

/-!
Specification-side functions used by the claims
-/

/-- The due flag `Scheduler.is_due` reports for an entry (`false` when the
lookup raises). -/
def dueBool (reg : Registry) (e : ScheduleEntry) : Bool :=
  match Scheduler.is_due reg e with
  | Except.ok (d, _) => d
  | Except.error _ => false

/-- The `next_time_to_run` values a pass over `entries` collects: one per
entry whose due check returns a nonzero remaining time, whether or not the
entry is due. -/
def collectedTimes (reg : Registry) (entries : List ScheduleEntry) : List Nat :=
  entries.filterMap (fun e =>
    match Scheduler.is_due reg e with
    | Except.ok (_, some v) => if v != 0 then some v else none
    | _ => none)

/-- The names of the due entries of a pass, in order. -/
def dueNames (reg : Registry) (entries : List ScheduleEntry) : List String :=
  entries.filterMap (fun e => if dueBool reg e then some e.name else none)

/-- The tick state an aborted or completed pass leaves behind. -/
def stateOf : Except (BeatError × TickState) TickState → TickState
  | Except.ok st => st
  | Except.error p => p.2

/-- The tick state a whole `tick` call leaves behind, whether it returned
or raised. -/
def tickFinal : Except (BeatError × TickState) (Nat × TickState) → TickState
  | Except.ok p => p.2
  | Except.error p => p.2

/-- The schedule dictionary is well formed: each entry is stored under its
own name (this is how `schedule_registry` builds it, the registry mapping
tasks under their own names). -/
def wfSchedule (sch : Schedule) : Prop := ∀ p ∈ sch, p.2.name = p.1

/-- The keys of the dictionary are pairwise distinct, as in a Python
dictionary. -/
def nodupKeys (sch : Schedule) : Prop := (sch.map Prod.fst).Nodup

/-!
Concrete instances used by counterexamples and witnesses
-/

/-- A task that is always due and reports 5 seconds until the next run. -/
def exTask1 : TaskDef := TaskDef.mk "a" (fun _ => (true, some 5)) (Except.ok 7) true

/-- Scheduler for the C1 counterexample: one entry, due, remaining time 5,
`max_interval` 10. -/
def ex1 : Scheduler :=
  Scheduler.mk [("a", exTask1)] [("a", ScheduleEntry.mk "a" 0 0)] 10

/-- A task that is always due and reports no remaining time. -/
def exTaskB : TaskDef := TaskDef.mk "b" (fun _ => (true, none)) (Except.ok 9) true

/-- Scheduler for the C3 counterexample: entry `"a"` is stale (its task was
deregistered), entry `"b"` is due. -/
def ex3 : Scheduler :=
  Scheduler.mk [("b", exTaskB)]
    [("a", ScheduleEntry.mk "a" 0 0), ("b", ScheduleEntry.mk "b" 0 0)] 10

/-- A task that is never due and reports 3 seconds until the next run. -/
def exTaskQuiet : TaskDef := TaskDef.mk "q" (fun _ => (false, some 3)) (Except.ok 1) true

/-- A task whose dispatch operation fails. -/
def exTaskBad : TaskDef :=
  TaskDef.mk "bad" (fun _ => (true, none)) (Except.error "boom") true

/-- Scheduler whose single due task has a failing dispatch operation. -/
def exBadSched : Scheduler :=
  Scheduler.mk [("bad", exTaskBad)] [("bad", ScheduleEntry.mk "bad" 0 0)] 10

/-- A periodic task that is not yet due. -/
def exTask4 : TaskDef := TaskDef.mk "a" (fun _ => (false, some 4)) (Except.ok 2) true

/-- Scheduler with one registered periodic task and an empty schedule. -/
def ex4 : Scheduler := Scheduler.mk [("a", exTask4)] [] 10

/-- Scheduler with a due entry `"a"` and a not-due entry `"q"`. -/
def ex10 : Scheduler :=
  Scheduler.mk [("a", exTask1), ("q", exTaskQuiet)]
    [("a", ScheduleEntry.mk "a" 0 0), ("q", ScheduleEntry.mk "q" 0 0)] 10

/-!
Helper lemmas: dictionary operations
-/

theorem ScheduleEntry.next_name (e : ScheduleEntry) (now : Nat) :
    (e.next now).name = e.name := rfl

theorem ScheduleEntry.next_count (e : ScheduleEntry) (now : Nat) :
    (e.next now).total_run_count = e.total_run_count + 1 := rfl

theorem ScheduleEntry.next_last (e : ScheduleEntry) (now : Nat) :
    (e.next now).last_run_at = now := rfl

theorem hasKey_append (sch l2 : Schedule) (k : String) :
    hasKey (sch ++ l2) k = (hasKey sch k || hasKey l2 k) := by
  simp [hasKey, List.any_append]

theorem lookupEntry_append_left (sch l2 : Schedule) (k : String)
    (h : hasKey sch k = true) : lookupEntry (sch ++ l2) k = lookupEntry sch k := by
  induction sch with
  | nil => simp [hasKey] at h
  | cons p rest ih =>
      by_cases hk : p.1 = k
      · have hb : (p.1 == k) = true := beq_iff_eq.mpr hk
        simp [lookupEntry, List.find?, hb]
      · have hb : (p.1 == k) = false := beq_eq_false_iff_ne.mpr hk
        have h2 : hasKey rest k = true := by
          simpa [hasKey, hb] using h
        simpa [lookupEntry, List.find?, hb] using ih h2

theorem keyCount_append (sch l2 : Schedule) (k : String) :
    keyCount (sch ++ l2) k = keyCount sch k + keyCount l2 k := by
  simp [keyCount, List.filter_append]

theorem lookupEntry_setValue_self (sch : Schedule) (k : String) (v : ScheduleEntry) :
    lookupEntry (setValue sch k v) k = some v := by
  induction sch with
  | nil => simp [setValue, lookupEntry, List.find?]
  | cons p rest ih =>
      by_cases hk : p.1 = k
      · have hb : (p.1 == k) = true := beq_iff_eq.mpr hk
        simp [setValue, hb, lookupEntry, List.find?]
      · have hb : (p.1 == k) = false := beq_eq_false_iff_ne.mpr hk
        simpa [setValue, hb, lookupEntry, List.find?] using ih

theorem lookupEntry_setValue_ne (sch : Schedule) (k k2 : String) (v : ScheduleEntry)
    (h : k2 ≠ k) : lookupEntry (setValue sch k v) k2 = lookupEntry sch k2 := by
  have hkk : (k == k2) = false := beq_eq_false_iff_ne.mpr (Ne.symm h)
  induction sch with
  | nil => simp [setValue, lookupEntry, List.find?, hkk]
  | cons p rest ih =>
      by_cases hk : p.1 = k
      · have hb : (p.1 == k) = true := beq_iff_eq.mpr hk
        have hp2 : (p.1 == k2) = false := by
          rw [hk]; exact hkk
        simp [setValue, hb, lookupEntry, List.find?, hkk, hp2]
      · have hb : (p.1 == k) = false := beq_eq_false_iff_ne.mpr hk
        by_cases hp2 : p.1 = k2
        · have hb2 : (p.1 == k2) = true := beq_iff_eq.mpr hp2
          simp [setValue, hb, lookupEntry, List.find?, hb2]
        · have hb2 : (p.1 == k2) = false := beq_eq_false_iff_ne.mpr hp2
          simpa [setValue, hb, lookupEntry, List.find?, hb2] using ih

theorem setValue_keys_of_hasKey (sch : Schedule) (k : String) (v : ScheduleEntry)
    (h : hasKey sch k = true) :
    (setValue sch k v).map Prod.fst = sch.map Prod.fst := by
  induction sch with
  | nil => simp [hasKey] at h
  | cons p rest ih =>
      by_cases hk : p.1 = k
      · have hb : (p.1 == k) = true := beq_iff_eq.mpr hk
        simp [setValue, hb, hk]
      · have hb : (p.1 == k) = false := beq_eq_false_iff_ne.mpr hk
        have h2 : hasKey rest k = true := by
          simpa [hasKey, hb] using h
        simp [setValue, hb, ih h2]

theorem hasKey_eq_keys_any (sch : Schedule) (k : String) :
    hasKey sch k = (sch.map Prod.fst).any (fun n => n == k) := by
  induction sch with
  | nil => rfl
  | cons p rest ih => simp only [hasKey, List.map_cons, List.any_cons] at ih ⊢; rw [ih]

theorem hasKey_of_keys_eq (sch sch2 : Schedule) (k : String)
    (h : sch2.map Prod.fst = sch.map Prod.fst) : hasKey sch2 k = hasKey sch k := by
  rw [hasKey_eq_keys_any, hasKey_eq_keys_any, h]

/-!
Helper lemmas: one step of the tick loop
-/

theorem collectStep_schedule (nt : Option Nat) (st : TickState) :
    (collectStep nt st).schedule = st.schedule := by
  unfold collectStep; split <;> rfl

theorem collectStep_dispatches (nt : Option Nat) (st : TickState) :
    (collectStep nt st).dispatches = st.dispatches := by
  unfold collectStep; split <;> rfl

theorem collectStep_remaining (nt : Option Nat) (st : TickState) :
    (collectStep nt st).remaining_times =
      st.remaining_times ++ (if truthy nt then [nt.getD 0] else []) := by
  unfold collectStep; split <;> simp_all

theorem apply_async_schedule (reg : Registry) (now : Nat) (e : ScheduleEntry)
    (st : TickState) :
    (Scheduler.apply_async reg now e st).1.schedule =
      setValue st.schedule e.name (e.next now) := by
  unfold Scheduler.apply_async
  simp only [ScheduleEntry.next_name]
  cases hg : Scheduler.get_task reg e.name with
  | error err => simp [hg]
  | ok task => cases ha : task.apply_async <;> simp [hg, ha]

theorem apply_async_remaining (reg : Registry) (now : Nat) (e : ScheduleEntry)
    (st : TickState) :
    (Scheduler.apply_async reg now e st).1.remaining_times = st.remaining_times := by
  unfold Scheduler.apply_async
  cases hg : Scheduler.get_task reg (ScheduleEntry.next e now).name with
  | error err => simp [hg]
  | ok task => cases ha : task.apply_async <;> simp [hg, ha]

theorem apply_async_ok (reg : Registry) (now : Nat) (e : ScheduleEntry)
    (st st1 : TickState) (r : Nat)
    (h : Scheduler.apply_async reg now e st = (st1, Except.ok r)) :
    st1 = TickState.mk (setValue st.schedule e.name (e.next now))
        st.remaining_times (st.dispatches ++ [e.name]) ∧
      ∃ task, Scheduler.get_task reg e.name = Except.ok task ∧
        task.apply_async = Except.ok r := by
  unfold Scheduler.apply_async at h
  simp only [ScheduleEntry.next_name] at h
  cases hg : Scheduler.get_task reg e.name with
  | error err => simp [hg] at h
  | ok task =>
      cases ha : task.apply_async with
      | error exc => simp [hg, ha] at h
      | ok r2 =>
          simp [hg, ha] at h
          obtain ⟨h1, h2⟩ := h
          exact ⟨h1.symm, task, rfl, by rw [ha, h2]⟩

theorem apply_async_fail (reg : Registry) (now : Nat) (e : ScheduleEntry)
    (st : TickState) (task : TaskDef) (exc : String)
    (hg : Scheduler.get_task reg e.name = Except.ok task)
    (ha : task.apply_async = Except.error exc) :
    Scheduler.apply_async reg now e st =
      (TickState.mk (setValue st.schedule e.name (e.next now))
         st.remaining_times (st.dispatches ++ [e.name]),
       Except.error (BeatError.schedulingError task.name exc)) := by
  unfold Scheduler.apply_async
  simp only [ScheduleEntry.next_name]
  simp [hg, ha]

/-!
Helper lemmas: the tick loop
-/

theorem tickLoop_nil (reg : Registry) (now : Nat) (st : TickState) :
    Scheduler.tickLoop reg now [] st = Except.ok st := rfl

theorem tickLoop_cons (reg : Registry) (now : Nat) (e : ScheduleEntry)
    (rest : List ScheduleEntry) (st : TickState) :
    Scheduler.tickLoop reg now (e :: rest) st =
      match Scheduler.is_due reg e with
      | Except.error err => Except.error (err, st)
      | Except.ok (due, next_time_to_run) =>
          if due then
            match Scheduler.apply_async reg now e st with
            | (st1, Except.ok _) =>
                Scheduler.tickLoop reg now rest (collectStep next_time_to_run st1)
            | (st1, Except.error err) => Except.error (err, st1)
          else Scheduler.tickLoop reg now rest (collectStep next_time_to_run st) := rfl

theorem collectedTimes_nil (reg : Registry) : collectedTimes reg [] = [] := rfl

theorem collectedTimes_cons (reg : Registry) (e : ScheduleEntry)
    (rest : List ScheduleEntry) (due : Bool) (nt : Option Nat)
    (hd : Scheduler.is_due reg e = Except.ok (due, nt)) :
    collectedTimes reg (e :: rest) =
      (if truthy nt then [nt.getD 0] else []) ++ collectedTimes reg rest := by
  cases nt with
  | none => simp [collectedTimes, List.filterMap_cons, hd, truthy]
  | some v =>
      by_cases hv : v = 0
      · simp [collectedTimes, List.filterMap_cons, hd, truthy, hv]
      · simp [collectedTimes, List.filterMap_cons, hd, truthy, hv]

theorem collectedTimes_cons_err (reg : Registry) (e : ScheduleEntry)
    (rest : List ScheduleEntry) (err : BeatError)
    (hd : Scheduler.is_due reg e = Except.error err) :
    collectedTimes reg (e :: rest) = collectedTimes reg rest := by
  simp [collectedTimes, List.filterMap_cons, hd]

theorem dueBool_of_is_due (reg : Registry) (e : ScheduleEntry) (due : Bool)
    (nt : Option Nat) (hd : Scheduler.is_due reg e = Except.ok (due, nt)) :
    dueBool reg e = due := by
  simp [dueBool, hd]

theorem dueNames_cons (reg : Registry) (e : ScheduleEntry) (rest : List ScheduleEntry) :
    dueNames reg (e :: rest) =
      (if dueBool reg e then [e.name] else []) ++ dueNames reg rest := by
  by_cases h : dueBool reg e <;> simp [dueNames, List.filterMap_cons, h]

theorem tickLoop_ok_remaining (reg : Registry) (now : Nat)
    (entries : List ScheduleEntry) :
    ∀ st st2 : TickState, Scheduler.tickLoop reg now entries st = Except.ok st2 →
      st2.remaining_times = st.remaining_times ++ collectedTimes reg entries := by
  induction entries with
  | nil =>
      intro st st2 h
      rw [tickLoop_nil] at h
      cases h
      simp [collectedTimes]
  | cons e rest ih =>
      intro st st2 h
      rw [tickLoop_cons] at h
      cases hd : Scheduler.is_due reg e with
      | error err => rw [hd] at h; simp at h
      | ok p =>
          obtain ⟨due, nt⟩ := p
          rw [hd] at h
          cases due with
          | false =>
              simp only [if_neg Bool.false_ne_true] at h
              rw [ih _ _ h, collectStep_remaining]
              rw [collectedTimes_cons reg e rest false nt hd]
              simp [List.append_assoc]
          | true =>
              simp only [if_pos rfl] at h
              cases ha : Scheduler.apply_async reg now e st with
              | mk st1 res =>
                  rw [ha] at h
                  cases res with
                  | error err => simp at h
                  | ok r =>
                      have h1 : (Scheduler.apply_async reg now e st).1 = st1 := by
                        rw [ha]
                      have hrem : st1.remaining_times = st.remaining_times := by
                        rw [← h1, apply_async_remaining]
                      rw [ih _ _ h, collectStep_remaining, hrem]
                      rw [collectedTimes_cons reg e rest true nt hd]
                      simp [List.append_assoc]

theorem tickLoop_ok_dispatches (reg : Registry) (now : Nat)
    (entries : List ScheduleEntry) :
    ∀ st st2 : TickState, Scheduler.tickLoop reg now entries st = Except.ok st2 →
      st2.dispatches = st.dispatches ++ dueNames reg entries := by
  induction entries with
  | nil =>
      intro st st2 h
      rw [tickLoop_nil] at h
      cases h
      simp [dueNames]
  | cons e rest ih =>
      intro st st2 h
      rw [tickLoop_cons] at h
      cases hd : Scheduler.is_due reg e with
      | error err => rw [hd] at h; simp at h
      | ok p =>
          obtain ⟨due, nt⟩ := p
          rw [hd] at h
          cases due with
          | false =>
              simp only [if_neg Bool.false_ne_true] at h
              rw [ih _ _ h, collectStep_dispatches, dueNames_cons]
              rw [dueBool_of_is_due reg e false nt hd]
              simp
          | true =>
              simp only [if_pos rfl] at h
              cases ha : Scheduler.apply_async reg now e st with
              | mk st1 res =>
                  rw [ha] at h
                  cases res with
                  | error err => simp at h
                  | ok r =>
                      obtain ⟨hst1, -⟩ := apply_async_ok reg now e st st1 r ha
                      rw [ih _ _ h, collectStep_dispatches, hst1, dueNames_cons]
                      rw [dueBool_of_is_due reg e true nt hd]
                      simp [List.append_assoc]

theorem tickLoop_append (reg : Registry) (now : Nat) (xs ys : List ScheduleEntry) :
    ∀ st : TickState, Scheduler.tickLoop reg now (xs ++ ys) st =
      match Scheduler.tickLoop reg now xs st with
      | Except.error p => Except.error p
      | Except.ok st1 => Scheduler.tickLoop reg now ys st1 := by
  induction xs with
  | nil => intro st; rw [List.nil_append, tickLoop_nil]
  | cons e rest ih =>
      intro st
      rw [List.cons_append, tickLoop_cons, tickLoop_cons]
      cases hd : Scheduler.is_due reg e with
      | error err => rfl
      | ok p =>
          obtain ⟨due, nt⟩ := p
          cases due with
          | false => simpa using ih (collectStep nt st)
          | true =>
              cases ha : Scheduler.apply_async reg now e st with
              | mk st1 res =>
                  cases res with
                  | error err => rfl
                  | ok r => simpa using ih (collectStep nt st1)

theorem tickLoop_cons_err (reg : Registry) (now : Nat) (e : ScheduleEntry)
    (rest : List ScheduleEntry) (st : TickState) (err : BeatError)
    (hd : Scheduler.is_due reg e = Except.error err) :
    Scheduler.tickLoop reg now (e :: rest) st = Except.error (err, st) := by
  rw [tickLoop_cons, hd]

theorem tickLoop_cons_notdue (reg : Registry) (now : Nat) (e : ScheduleEntry)
    (rest : List ScheduleEntry) (st : TickState) (nt : Option Nat)
    (hd : Scheduler.is_due reg e = Except.ok (false, nt)) :
    Scheduler.tickLoop reg now (e :: rest) st =
      Scheduler.tickLoop reg now rest (collectStep nt st) := by
  rw [tickLoop_cons, hd]
  simp

theorem tickLoop_cons_due_ok (reg : Registry) (now : Nat) (e : ScheduleEntry)
    (rest : List ScheduleEntry) (st st1 : TickState) (nt : Option Nat) (r : Nat)
    (hd : Scheduler.is_due reg e = Except.ok (true, nt))
    (ha : Scheduler.apply_async reg now e st = (st1, Except.ok r)) :
    Scheduler.tickLoop reg now (e :: rest) st =
      Scheduler.tickLoop reg now rest (collectStep nt st1) := by
  rw [tickLoop_cons, hd, ha]
  simp

theorem tickLoop_cons_due_err (reg : Registry) (now : Nat) (e : ScheduleEntry)
    (rest : List ScheduleEntry) (st st1 : TickState) (nt : Option Nat) (err : BeatError)
    (hd : Scheduler.is_due reg e = Except.ok (true, nt))
    (ha : Scheduler.apply_async reg now e st = (st1, Except.error err)) :
    Scheduler.tickLoop reg now (e :: rest) st = Except.error (err, st1) := by
  rw [tickLoop_cons, hd, ha]
  simp

theorem tickLoop_lookup (reg : Registry) (now : Nat) (entries : List ScheduleEntry) :
    ∀ (st : TickState) (k : String),
      lookupEntry (stateOf (Scheduler.tickLoop reg now entries st)).schedule k =
        lookupEntry st.schedule k ∨
      ∃ e, e ∈ entries ∧ e.name = k ∧ dueBool reg e = true ∧
        lookupEntry (stateOf (Scheduler.tickLoop reg now entries st)).schedule k =
          some (e.next now) := by
  induction entries with
  | nil => intro st k; left; rfl
  | cons e rest ih =>
      intro st k
      cases hd : Scheduler.is_due reg e with
      | error err =>
          left
          rw [tickLoop_cons_err reg now e rest st err hd]
          rfl
      | ok p =>
          obtain ⟨due, nt⟩ := p
          cases due with
          | false =>
              rw [tickLoop_cons_notdue reg now e rest st nt hd]
              rcases ih (collectStep nt st) k with h | ⟨e2, he2, hn, hdu, hl⟩
              · left
                rw [h, collectStep_schedule]
              · right
                exact ⟨e2, List.mem_cons_of_mem e he2, hn, hdu, hl⟩
          | true =>
              have hdue : dueBool reg e = true := dueBool_of_is_due reg e true nt hd
              cases ha : Scheduler.apply_async reg now e st with
              | mk st1 res =>
                  have h1 : (Scheduler.apply_async reg now e st).1 = st1 := by rw [ha]
                  have hsch : st1.schedule = setValue st.schedule e.name (e.next now) := by
                    rw [← h1, apply_async_schedule]
                  cases res with
                  | error err =>
                      rw [tickLoop_cons_due_err reg now e rest st st1 nt err hd ha]
                      by_cases hk : e.name = k
                      · right
                        refine ⟨e, List.mem_cons_self e rest, hk, hdue, ?_⟩
                        subst hk
                        simp [stateOf, hsch, lookupEntry_setValue_self]
                      · left
                        simp only [stateOf, hsch]
                        exact lookupEntry_setValue_ne st.schedule e.name k (e.next now)
                          (fun hh => hk hh.symm)
                  | ok r =>
                      rw [tickLoop_cons_due_ok reg now e rest st st1 nt r hd ha]
                      rcases ih (collectStep nt st1) k with h | ⟨e2, he2, hn, hdu, hl⟩
                      · rw [collectStep_schedule, hsch] at h
                        by_cases hk : e.name = k
                        · right
                          refine ⟨e, List.mem_cons_self e rest, hk, hdue, ?_⟩
                          subst hk
                          rw [h]
                          exact lookupEntry_setValue_self st.schedule e.name (e.next now)
                        · left
                          rw [h]
                          exact lookupEntry_setValue_ne st.schedule e.name k (e.next now)
                            (fun hh => hk hh.symm)
                      · right
                        exact ⟨e2, List.mem_cons_of_mem e he2, hn, hdu, hl⟩

theorem tickLoop_keys (reg : Registry) (now : Nat) (entries : List ScheduleEntry) :
    ∀ st : TickState, (∀ e ∈ entries, hasKey st.schedule e.name = true) →
      (stateOf (Scheduler.tickLoop reg now entries st)).schedule.map Prod.fst =
        st.schedule.map Prod.fst := by
  induction entries with
  | nil => intro st _; rfl
  | cons e rest ih =>
      intro st hks
      cases hd : Scheduler.is_due reg e with
      | error err =>
          rw [tickLoop_cons_err reg now e rest st err hd]
          rfl
      | ok p =>
          obtain ⟨due, nt⟩ := p
          cases due with
          | false =>
              rw [tickLoop_cons_notdue reg now e rest st nt hd]
              have := ih (collectStep nt st) (by
                intro e2 he2
                rw [collectStep_schedule]
                exact hks e2 (List.mem_cons_of_mem e he2))
              rwa [collectStep_schedule] at this
          | true =>
              cases ha : Scheduler.apply_async reg now e st with
              | mk st1 res =>
                  have h1 : (Scheduler.apply_async reg now e st).1 = st1 := by rw [ha]
                  have hsch : st1.schedule = setValue st.schedule e.name (e.next now) := by
                    rw [← h1, apply_async_schedule]
                  have hkeys : st1.schedule.map Prod.fst = st.schedule.map Prod.fst := by
                    rw [hsch]
                    exact setValue_keys_of_hasKey st.schedule e.name (e.next now)
                      (hks e (List.mem_cons_self e rest))
                  cases res with
                  | error err =>
                      rw [tickLoop_cons_due_err reg now e rest st st1 nt err hd ha]
                      exact hkeys
                  | ok r =>
                      rw [tickLoop_cons_due_ok reg now e rest st st1 nt r hd ha]
                      have := ih (collectStep nt st1) (by
                        intro e2 he2
                        rw [collectStep_schedule]
                        rw [hasKey_of_keys_eq st.schedule st1.schedule e2.name hkeys]
                        exact hks e2 (List.mem_cons_of_mem e he2))
                      rw [collectStep_schedule] at this
                      rw [this, hkeys]

/-!
Helper lemmas: tick, well-formed schedules
-/

theorem tick_ok_elim (s : Scheduler) (now i : Nat) (st : TickState)
    (h : Scheduler.tick s now = Except.ok (i, st)) :
    Scheduler.tickLoop s.registry now (s.schedule.map Prod.snd)
        (TickState.mk s.schedule [] []) = Except.ok st ∧
      i = st.remaining_times.foldr min s.max_interval := by
  unfold Scheduler.tick at h
  cases hl : Scheduler.tickLoop s.registry now (s.schedule.map Prod.snd)
      (TickState.mk s.schedule [] []) with
  | error p => rw [hl] at h; simp at h
  | ok st0 =>
      rw [hl] at h
      simp at h
      obtain ⟨h1, h2⟩ := h
      subst h2
      exact ⟨rfl, h1.symm⟩

theorem tickFinal_eq_stateOf (s : Scheduler) (now : Nat) :
    tickFinal (Scheduler.tick s now) =
      stateOf (Scheduler.tickLoop s.registry now (s.schedule.map Prod.snd)
        (TickState.mk s.schedule [] [])) := by
  unfold Scheduler.tick
  cases hl : Scheduler.tickLoop s.registry now (s.schedule.map Prod.snd)
      (TickState.mk s.schedule [] []) with
  | error p => rfl
  | ok st0 => rfl

theorem hasKey_of_mem (sch : Schedule) (p : String × ScheduleEntry) (h : p ∈ sch) :
    hasKey sch p.1 = true := by
  unfold hasKey
  rw [List.any_eq_true]
  exact ⟨p, h, by simp⟩

theorem lookupEntry_of_mem_nodup (sch : Schedule) (p : String × ScheduleEntry)
    (hnd : nodupKeys sch) (h : p ∈ sch) : lookupEntry sch p.1 = some p.2 := by
  induction sch with
  | nil => cases h
  | cons q rest ih =>
      rcases List.mem_cons.mp h with hq | hq
      · subst hq
        simp [lookupEntry, List.find?]
      · have hne : q.1 ≠ p.1 := by
          intro hh
          have : p.1 ∈ rest.map Prod.fst := List.mem_map_of_mem Prod.fst hq
          rw [← hh] at this
          exact (List.nodup_cons.mp hnd).1 this
        have hb : (q.1 == p.1) = false := beq_eq_false_iff_ne.mpr hne
        have := ih (List.nodup_cons.mp hnd).2 hq
        simpa [lookupEntry, List.find?, hb] using this

theorem wf_names_eq_keys (sch : Schedule) (hwf : wfSchedule sch) :
    (sch.map Prod.snd).map ScheduleEntry.name = sch.map Prod.fst := by
  rw [List.map_map]
  exact List.map_congr_left (fun p hp => hwf p hp)

theorem mem_dueNames (reg : Registry) (entries : List ScheduleEntry) (x : String)
    (h : x ∈ dueNames reg entries) : x ∈ entries.map ScheduleEntry.name := by
  simp only [dueNames, List.mem_filterMap] at h
  obtain ⟨e, he, hx⟩ := h
  by_cases hdb : dueBool reg e = true
  · rw [if_pos hdb] at hx
    cases hx
    exact List.mem_map_of_mem ScheduleEntry.name he
  · rw [if_neg hdb] at hx
    cases hx

theorem count_dueNames (reg : Registry) (entries : List ScheduleEntry)
    (hnd : (entries.map ScheduleEntry.name).Nodup) (e : ScheduleEntry)
    (he : e ∈ entries) :
    (dueNames reg entries).count e.name = if dueBool reg e then 1 else 0 := by
  induction entries with
  | nil => cases he
  | cons a rest ih =>
      rw [dueNames_cons]
      rw [List.count_append]
      rcases List.mem_cons.mp he with rfl | hmem
      · have hnotin : e.name ∉ dueNames reg rest := by
          intro hx
          exact (List.nodup_cons.mp hnd).1 (mem_dueNames reg rest e.name hx)
        rw [List.count_eq_zero.mpr hnotin]
        by_cases hdb : dueBool reg e = true
        · simp [hdb]
        · simp [hdb]
      · have hane : a.name ≠ e.name := by
          intro hh
          have : e.name ∈ rest.map ScheduleEntry.name :=
            List.mem_map_of_mem ScheduleEntry.name hmem
          rw [← hh] at this
          exact (List.nodup_cons.mp hnd).1 this
        have hcnt0 : (if dueBool reg a then [a.name] else []).count e.name = 0 := by
          by_cases hdb : dueBool reg a = true
          · simp [hdb, List.count_singleton, hane]
          · simp [hdb]
        rw [hcnt0, ih (List.nodup_cons.mp hnd).2 hmem]
        simp

/-!
Helper lemmas: setdefault and the reconcile fold
-/

theorem setdefault_of_hasKey (sch : Schedule) (k : String) (v : ScheduleEntry)
    (h : hasKey sch k = true) : setdefault sch k v = sch := by
  unfold setdefault
  rw [if_pos h]

theorem setdefault_of_absent (sch : Schedule) (k : String) (v : ScheduleEntry)
    (h : hasKey sch k = false) : setdefault sch k v = sch ++ [(k, v)] := by
  unfold setdefault
  rw [if_neg (by simp [h])]

theorem hasKey_setdefault_self (sch : Schedule) (k : String) (v : ScheduleEntry) :
    hasKey (setdefault sch k v) k = true := by
  cases h : hasKey sch k with
  | true => rw [setdefault_of_hasKey sch k v h]; exact h
  | false =>
      rw [setdefault_of_absent sch k v h, hasKey_append, h]
      simp [hasKey]

theorem hasKey_setdefault_mono (sch : Schedule) (k k2 : String) (v : ScheduleEntry)
    (h : hasKey sch k2 = true) : hasKey (setdefault sch k v) k2 = true := by
  cases hk : hasKey sch k with
  | true => rw [setdefault_of_hasKey sch k v hk]; exact h
  | false => rw [setdefault_of_absent sch k v hk, hasKey_append, h]; rfl

theorem hasKey_setdefault_ne (sch : Schedule) (k k2 : String) (v : ScheduleEntry)
    (h : k ≠ k2) : hasKey (setdefault sch k v) k2 = hasKey sch k2 := by
  cases hk : hasKey sch k with
  | true => rw [setdefault_of_hasKey sch k v hk]
  | false =>
      rw [setdefault_of_absent sch k v hk, hasKey_append]
      have h1 : hasKey [(k, v)] k2 = false := by
        simp [hasKey, beq_eq_false_iff_ne.mpr h]
      rw [h1, Bool.or_false]

theorem keyCount_zero_of_absent (sch : Schedule) (k : String)
    (h : hasKey sch k = false) : keyCount sch k = 0 := by
  induction sch with
  | nil => rfl
  | cons p rest ih =>
      rw [hasKey, List.any_cons] at h
      obtain ⟨h1, h2⟩ := Bool.or_eq_false_iff.mp h
      unfold keyCount
      rw [List.filter_cons]
      simp only [h1, Bool.false_eq_true, if_false]
      exact ih h2

theorem keyCount_singleton_self (k : String) (v : ScheduleEntry) :
    keyCount [(k, v)] k = 1 := by
  simp [keyCount]

theorem lookupEntry_append_right (sch l2 : Schedule) (k : String)
    (h : hasKey sch k = false) : lookupEntry (sch ++ l2) k = lookupEntry l2 k := by
  induction sch with
  | nil => rfl
  | cons p rest ih =>
      rw [hasKey, List.any_cons] at h
      obtain ⟨h1, h2⟩ := Bool.or_eq_false_iff.mp h
      simpa [lookupEntry, List.find?, h1] using ih h2

theorem fold_setdefault_exists_append (f : String × TaskDef → ScheduleEntry)
    (ps : Registry) :
    ∀ sch : Schedule, ∃ added : Schedule,
      ps.foldl (fun sch p => setdefault sch p.1 (f p)) sch = sch ++ added := by
  induction ps with
  | nil => intro sch; exact ⟨[], by simp⟩
  | cons p ps ih =>
      intro sch
      rw [List.foldl_cons]
      cases hk : hasKey sch p.1 with
      | true =>
          rw [setdefault_of_hasKey sch p.1 (f p) hk]
          exact ih sch
      | false =>
          rw [setdefault_of_absent sch p.1 (f p) hk]
          obtain ⟨added1, h1⟩ := ih (sch ++ [(p.1, f p)])
          exact ⟨[(p.1, f p)] ++ added1, by rw [h1, List.append_assoc]⟩

theorem fold_setdefault_lookup_present (f : String × TaskDef → ScheduleEntry)
    (ps : Registry) :
    ∀ (sch : Schedule) (k : String), hasKey sch k = true →
      lookupEntry (ps.foldl (fun sch p => setdefault sch p.1 (f p)) sch) k =
        lookupEntry sch k := by
  induction ps with
  | nil => intro sch k _; rfl
  | cons p ps ih =>
      intro sch k h
      rw [List.foldl_cons]
      cases hk : hasKey sch p.1 with
      | true =>
          rw [setdefault_of_hasKey sch p.1 (f p) hk]
          exact ih sch k h
      | false =>
          rw [setdefault_of_absent sch p.1 (f p) hk]
          have h2 : hasKey (sch ++ [(p.1, f p)]) k = true := by
            rw [hasKey_append, h]; rfl
          rw [ih (sch ++ [(p.1, f p)]) k h2]
          exact lookupEntry_append_left sch [(p.1, f p)] k h

theorem fold_setdefault_hasKey_mono (f : String × TaskDef → ScheduleEntry)
    (ps : Registry) :
    ∀ (sch : Schedule) (k : String), hasKey sch k = true →
      hasKey (ps.foldl (fun sch p => setdefault sch p.1 (f p)) sch) k = true := by
  induction ps with
  | nil => intro sch k h; exact h
  | cons p ps ih =>
      intro sch k h
      rw [List.foldl_cons]
      exact ih (setdefault sch p.1 (f p)) k (hasKey_setdefault_mono sch p.1 k (f p) h)

theorem fold_setdefault_hasKey_of_mem (f : String × TaskDef → ScheduleEntry)
    (ps : Registry) :
    ∀ (sch : Schedule) (k : String) (t : TaskDef), (k, t) ∈ ps →
      hasKey (ps.foldl (fun sch p => setdefault sch p.1 (f p)) sch) k = true := by
  induction ps with
  | nil => intro sch k t h; cases h
  | cons p ps ih =>
      intro sch k t h
      rw [List.foldl_cons]
      rcases List.mem_cons.mp h with hq | hq
      · rw [← hq]
        exact fold_setdefault_hasKey_mono f ps (setdefault sch k (f (k, t))) k
          (hasKey_setdefault_self sch k (f (k, t)))
      · exact ih (setdefault sch p.1 (f p)) k t hq

theorem fold_setdefault_keyCount_present (f : String × TaskDef → ScheduleEntry)
    (ps : Registry) :
    ∀ (sch : Schedule) (k : String), hasKey sch k = true →
      keyCount (ps.foldl (fun sch p => setdefault sch p.1 (f p)) sch) k =
        keyCount sch k := by
  induction ps with
  | nil => intro sch k _; rfl
  | cons p ps ih =>
      intro sch k h
      rw [List.foldl_cons]
      cases hk : hasKey sch p.1 with
      | true =>
          rw [setdefault_of_hasKey sch p.1 (f p) hk]
          exact ih sch k h
      | false =>
          rw [setdefault_of_absent sch p.1 (f p) hk]
          have hne : p.1 ≠ k := by
            intro hh
            rw [hh] at hk
            rw [h] at hk
            cases hk
          have h2 : hasKey (sch ++ [(p.1, f p)]) k = true := by
            rw [hasKey_append, h]; rfl
          rw [ih (sch ++ [(p.1, f p)]) k h2, keyCount_append]
          have h3 : keyCount [(p.1, f p)] k = 0 := by
            simp [keyCount, beq_eq_false_iff_ne.mpr hne]
          rw [h3, Nat.add_zero]

theorem fold_setdefault_insert (f : String × TaskDef → ScheduleEntry)
    (ps : Registry) :
    ∀ (sch : Schedule) (k : String) (t : TaskDef),
      (ps.map Prod.fst).Nodup → (k, t) ∈ ps → hasKey sch k = false →
      lookupEntry (ps.foldl (fun sch p => setdefault sch p.1 (f p)) sch) k =
          some (f (k, t)) ∧
        keyCount (ps.foldl (fun sch p => setdefault sch p.1 (f p)) sch) k = 1 := by
  induction ps with
  | nil => intro sch k t _ h _; cases h
  | cons p ps ih =>
      intro sch k t hnd hmem habs
      rw [List.foldl_cons]
      rcases List.mem_cons.mp hmem with hq | hq
      · rw [← hq]
        rw [setdefault_of_absent sch k (f (k, t)) habs]
        have hself : hasKey (sch ++ [(k, f (k, t))]) k = true := by
          rw [hasKey_append, habs]
          simp [hasKey]
        constructor
        · rw [fold_setdefault_lookup_present f ps (sch ++ [(k, f (k, t))]) k hself]
          rw [lookupEntry_append_right sch [(k, f (k, t))] k habs]
          simp [lookupEntry, List.find?]
        · rw [fold_setdefault_keyCount_present f ps (sch ++ [(k, f (k, t))]) k hself]
          rw [keyCount_append, keyCount_zero_of_absent sch k habs,
            keyCount_singleton_self]
      · have hne : p.1 ≠ k := by
          intro hh
          have : k ∈ ps.map Prod.fst := List.mem_map_of_mem Prod.fst hq
          rw [← hh] at this
          exact (List.nodup_cons.mp hnd).1 this
        have habs2 : hasKey (setdefault sch p.1 (f p)) k = false := by
          rw [hasKey_setdefault_ne sch p.1 k (f p) hne]
          exact habs
        exact ih (setdefault sch p.1 (f p)) k t (List.nodup_cons.mp hnd).2 hq habs2

theorem fold_setdefault_id (f : String × TaskDef → ScheduleEntry) (ps : Registry) :
    ∀ sch : Schedule, (∀ p ∈ ps, hasKey sch p.1 = true) →
      ps.foldl (fun sch p => setdefault sch p.1 (f p)) sch = sch := by
  induction ps with
  | nil => intro sch _; rfl
  | cons p ps ih =>
      intro sch h
      rw [List.foldl_cons, setdefault_of_hasKey sch p.1 (f p)
        (h p (List.mem_cons_self p ps))]
      exact ih sch (fun q hq => h q (List.mem_cons_of_mem p hq))

/-!
Helper lemmas: shutdown finalization
-/

theorem stopOnce_invariant (so co : Bool) (st : ClockState)
    (h : st.stoppedSet = true → st.synced = true ∧ 1 ≤ st.syncs ∧ 1 ≤ st.closes) :
    (ClockService.stopOnce so co st).1.stoppedSet = true →
      (ClockService.stopOnce so co st).1.synced = true ∧
        1 ≤ (ClockService.stopOnce so co st).1.syncs ∧
        1 ≤ (ClockService.stopOnce so co st).1.closes := by
  unfold ClockService.stopOnce
  split
  · exact h
  · split
    · exact h
    · split
      · intro hstop
        next hs _ _ =>
          exact absurd (h hstop).1 hs
      · intro _
        exact ⟨rfl, Nat.succ_le_succ (Nat.zero_le _), Nat.succ_le_succ (Nat.zero_le _)⟩

theorem runStops_invariant (steps : List (Bool × Bool)) :
    ∀ st : ClockState,
      (st.stoppedSet = true → st.synced = true ∧ 1 ≤ st.syncs ∧ 1 ≤ st.closes) →
      ((runStops steps st).stoppedSet = true →
        (runStops steps st).synced = true ∧ 1 ≤ (runStops steps st).syncs ∧
          1 ≤ (runStops steps st).closes) := by
  induction steps with
  | nil => intro st h; exact h
  | cons p rest ih =>
      intro st h
      unfold runStops
      exact ih (ClockService.stopOnce p.1 p.2 st).1 (stopOnce_invariant p.1 p.2 st h)

/-!
Claims
-/

/-- C1, counterexample.  In `ex1` every schedule entry is due (the single
due check of the entry returns `(true, 5)`), so the claim says the returned
interval must equal `max_interval = 10`; the code returns 5, because line
104 of beat.py collects `next_time_to_run` from due entries as well. -/
theorem C1_counterexample :
    (∀ p ∈ ex1.schedule, dueBool ex1.registry p.2 = true) ∧
    Scheduler.tick ex1 3 =
      Except.ok (5, TickState.mk [("a", ScheduleEntry.mk "a" 3 1)] [5] ["a"]) ∧
    ex1.max_interval = 10 ∧ (5 : Nat) ≠ 10 := by
  refine ⟨?_, rfl, rfl, by decide⟩
  intro p hp
  simp only [ex1] at hp
  rcases List.mem_singleton.mp hp with rfl
  rfl

/-- C1, amended.  The interval returned by a completed `tick` is the
minimum of `max_interval` and every nonzero `next_time_to_run` the due
checks reported — collected from due and not-due entries alike, while a
reported 0 or None is never collected; the result is `max_interval`
exactly when nothing was collected (in particular when the schedule is
empty). -/
theorem C1_amended_interval (s : Scheduler) (now i : Nat) (st : TickState)
    (h : Scheduler.tick s now = Except.ok (i, st)) :
    i = (collectedTimes s.registry (s.schedule.map Prod.snd)).foldr min
        s.max_interval ∧
      (collectedTimes s.registry (s.schedule.map Prod.snd) = [] →
        i = s.max_interval) := by
  obtain ⟨hl, hi⟩ := tick_ok_elim s now i st h
  have hr := tickLoop_ok_remaining s.registry now (s.schedule.map Prod.snd) _ _ hl
  constructor
  · rw [hi, hr]
    simp
  · intro hc
    rw [hi, hr, hc]
    simp

/-- C1 witness: the amended statement evaluated on `ex1`. -/
theorem C1_witness :
    5 = (collectedTimes ex1.registry (ex1.schedule.map Prod.snd)).foldr min
        ex1.max_interval := by
  have h := C1_amended_interval ex1 3 5
    (TickState.mk [("a", ScheduleEntry.mk "a" 3 1)] [5] ["a"]) rfl
  exact h.1

/-- C2: (i) in a completed pass over a well-formed schedule, the dispatch
operation of the task of each due entry is invoked exactly once and the
task of a not-due entry is never dispatched; (ii) `apply_async` replaces the stored
entry by its advanced successor (run count + 1, `last_run_at = now`)
before the dispatch outcome exists — the post-state schedule is the same
`setValue` whatever dispatch returns; (iii) a dispatch failure is raised
as `SchedulingError` carrying the task name and the cause, while the
schedule keeps the advanced entry (no rollback). -/
theorem C2_dispatch_once_advance_first :
    (∀ (s : Scheduler) (now i : Nat) (st : TickState),
        wfSchedule s.schedule → nodupKeys s.schedule →
        Scheduler.tick s now = Except.ok (i, st) →
        ∀ p ∈ s.schedule, st.dispatches.count p.1 =
          if dueBool s.registry p.2 then 1 else 0) ∧
    (∀ (reg : Registry) (now : Nat) (e : ScheduleEntry) (st : TickState),
        (Scheduler.apply_async reg now e st).1.schedule =
            setValue st.schedule e.name (e.next now) ∧
          (e.next now).total_run_count = e.total_run_count + 1 ∧
          (e.next now).last_run_at = now) ∧
    (∀ (reg : Registry) (now : Nat) (e : ScheduleEntry) (st : TickState)
        (task : TaskDef) (exc : String),
        Scheduler.get_task reg e.name = Except.ok task →
        task.apply_async = Except.error exc →
        Scheduler.apply_async reg now e st =
            (TickState.mk (setValue st.schedule e.name (e.next now))
              st.remaining_times (st.dispatches ++ [e.name]),
             Except.error (BeatError.schedulingError task.name exc)) ∧
          lookupEntry (Scheduler.apply_async reg now e st).1.schedule e.name =
            some (e.next now)) := by
  refine ⟨?_, ?_, ?_⟩
  · intro s now i st hwf hnd h p hp
    obtain ⟨hl, -⟩ := tick_ok_elim s now i st h
    have hd := tickLoop_ok_dispatches s.registry now (s.schedule.map Prod.snd) _ _ hl
    have hnames : ((s.schedule.map Prod.snd).map ScheduleEntry.name).Nodup := by
      rw [wf_names_eq_keys s.schedule hwf]
      exact hnd
    have hp2 : p.2 ∈ s.schedule.map Prod.snd := List.mem_map_of_mem Prod.snd hp
    have hcnt := count_dueNames s.registry (s.schedule.map Prod.snd) hnames p.2 hp2
    rw [hd]
    simp only [List.nil_append]
    rw [← hwf p hp]
    exact hcnt
  · intro reg now e st
    exact ⟨apply_async_schedule reg now e st, rfl, rfl⟩
  · intro reg now e st task exc hg ha
    constructor
    · exact apply_async_fail reg now e st task exc hg ha
    · rw [apply_async_schedule reg now e st]
      exact lookupEntry_setValue_self st.schedule e.name (e.next now)

/-- C2 witness: the three parts of the claim evaluated on concrete
schedulers — the due entry of `ex1` is dispatched once in its pass, and
the failing dispatch of `exBadSched` leaves the advanced entry stored
while raising the wrapped error. -/
theorem C2_witness :
    (TickState.mk [("a", ScheduleEntry.mk "a" 3 1)] [5] ["a"]).dispatches.count
        "a" = 1 ∧
    Scheduler.apply_async exBadSched.registry 4 (ScheduleEntry.mk "bad" 0 0)
        (TickState.mk exBadSched.schedule [] []) =
      (TickState.mk [("bad", ScheduleEntry.mk "bad" 4 1)] [] ["bad"],
       Except.error (BeatError.schedulingError "bad" "boom")) := by
  obtain ⟨h1, h2, h3⟩ := C2_dispatch_once_advance_first
  constructor
  · have := h1 ex1 3 5 (TickState.mk [("a", ScheduleEntry.mk "a" 3 1)] [5] ["a"])
      (by intro p hp; simp only [ex1] at hp; rcases List.mem_singleton.mp hp with rfl; rfl)
      (by simp [nodupKeys, ex1])
      rfl ("a", ScheduleEntry.mk "a" 0 0) (by simp [ex1])
    exact this
  · exact (h3 exBadSched.registry 4 (ScheduleEntry.mk "bad" 0 0)
      (TickState.mk exBadSched.schedule [] []) exTaskBad "boom" rfl rfl).1

/-- C3, counterexample.  In `ex3` the stale entry `"a"` (its task was
deregistered) is processed before the due entry `"b"`: the pass aborts
with `NotRegistered "a"` and `"b"` is never dispatched — the dispatch
trace is empty — so a failing entry does prevent evaluation of the
remaining entries, and no aggregate outcome is produced. -/
theorem C3_counterexample :
    Scheduler.tick ex3 3 =
      Except.error (BeatError.notRegistered "a",
        TickState.mk ex3.schedule [] []) ∧
    dueBool ex3.registry (ScheduleEntry.mk "b" 0 0) = true ∧
    (tickFinal (Scheduler.tick ex3 3)).dispatches = [] :=
  ⟨rfl, rfl, rfl⟩

/-- C3, amended.  Per-entry failures are not isolated: as soon as one
registry lookup of an entry fails, or its dispatch fails, `tick` propagates
that exception (`NotRegistered`, resp. `SchedulingError`) and the entries
after the failing one are never evaluated — the pass state is exactly the
state reached before the failure (plus, for a dispatch failure, the
already-advanced failing entry). -/
theorem C3_amended_abort :
    (∀ (reg : Registry) (now : Nat) (xs ys : List ScheduleEntry)
        (e : ScheduleEntry) (st0 st1 : TickState) (err : BeatError),
        Scheduler.tickLoop reg now xs st0 = Except.ok st1 →
        Scheduler.is_due reg e = Except.error err →
        Scheduler.tickLoop reg now (xs ++ e :: ys) st0 =
          Except.error (err, st1)) ∧
    (∀ (reg : Registry) (now : Nat) (xs ys : List ScheduleEntry)
        (e : ScheduleEntry) (st0 st1 : TickState) (nt : Option Nat)
        (task : TaskDef) (exc : String),
        Scheduler.tickLoop reg now xs st0 = Except.ok st1 →
        Scheduler.is_due reg e = Except.ok (true, nt) →
        Scheduler.get_task reg e.name = Except.ok task →
        task.apply_async = Except.error exc →
        Scheduler.tickLoop reg now (xs ++ e :: ys) st0 =
          Except.error (BeatError.schedulingError task.name exc,
            TickState.mk (setValue st1.schedule e.name (e.next now))
              st1.remaining_times (st1.dispatches ++ [e.name]))) := by
  constructor
  · intro reg now xs ys e st0 st1 err h1 h2
    rw [tickLoop_append reg now xs (e :: ys) st0, h1]
    exact tickLoop_cons_err reg now e ys st1 err h2
  · intro reg now xs ys e st0 st1 nt task exc h1 h2 hg ha
    rw [tickLoop_append reg now xs (e :: ys) st0, h1]
    exact tickLoop_cons_due_err reg now e ys st1
      (TickState.mk (setValue st1.schedule e.name (e.next now))
        st1.remaining_times (st1.dispatches ++ [e.name])) nt
      (BeatError.schedulingError task.name exc) h2
      (apply_async_fail reg now e st1 task exc hg ha)

/-- C3 witness: the amended statement evaluated on `ex3` — an empty prefix
followed by the stale entry `"a"` aborts the loop at once. -/
theorem C3_witness :
    Scheduler.tickLoop ex3.registry 3
        ([] ++ ScheduleEntry.mk "a" 0 0 :: [ScheduleEntry.mk "b" 0 0])
        (TickState.mk ex3.schedule [] []) =
      Except.error (BeatError.notRegistered "a",
        TickState.mk ex3.schedule [] []) := by
  exact C3_amended_abort.1 ex3.registry 3 [] [ScheduleEntry.mk "b" 0 0]
    (ScheduleEntry.mk "a" 0 0) (TickState.mk ex3.schedule [] [])
    (TickState.mk ex3.schedule [] []) (BeatError.notRegistered "a") rfl rfl

theorem Scheduler.ext_parts (a b : Scheduler) (h1 : a.registry = b.registry)
    (h2 : a.schedule = b.schedule) (h3 : a.max_interval = b.max_interval) :
    a = b := by
  cases a
  cases b
  cases h1
  cases h2
  cases h3
  rfl

theorem filter_self_idem (p : String × ScheduleEntry → Bool) (l : Schedule) :
    (l.filter p).filter p = l.filter p := by
  induction l with
  | nil => rfl
  | cons q rest ih => cases hq : p q <;> simp [List.filter_cons, hq, ih]

/-- C4: `Scheduler.schedule_registry` (reconcile() of the spec) only
appends to the schedule — every existing pair survives unchanged and the
value stored under an existing key is untouched; for each periodic
registry name absent from the schedule it inserts exactly one fresh entry
with run count 0 and `last_run_at = now`; and a second call is the
identity. -/
theorem C4_reconcile (s : Scheduler) (now : Nat)
    (hnd : (s.registry.map Prod.fst).Nodup) :
    (∃ added, (Scheduler.schedule_registry s now).schedule =
        s.schedule ++ added) ∧
    (∀ k, hasKey s.schedule k = true →
        lookupEntry (Scheduler.schedule_registry s now).schedule k =
          lookupEntry s.schedule k) ∧
    (∀ k t, (k, t) ∈ get_all_periodic s.registry →
        hasKey s.schedule k = false →
        lookupEntry (Scheduler.schedule_registry s now).schedule k =
            some (ScheduleEntry.mk t.name now 0) ∧
          keyCount (Scheduler.schedule_registry s now).schedule k = 1) ∧
    Scheduler.schedule_registry (Scheduler.schedule_registry s now) now =
      Scheduler.schedule_registry s now := by
  have hnd2 : ((get_all_periodic s.registry).map Prod.fst).Nodup :=
    ((List.filter_sublist s.registry).map Prod.fst).nodup hnd
  have hidem : (get_all_periodic s.registry).foldl
      (fun sch p => setdefault sch p.1 (ScheduleEntry.init now p.2.name none none))
      ((Scheduler.schedule_registry s now).schedule) =
      (Scheduler.schedule_registry s now).schedule := by
    apply fold_setdefault_id
    intro p hp
    exact fold_setdefault_hasKey_of_mem
      (fun p => ScheduleEntry.init now p.2.name none none)
      (get_all_periodic s.registry) s.schedule p.1 p.2 hp
  refine ⟨?_, ?_, ?_, ?_⟩
  · exact fold_setdefault_exists_append
      (fun p => ScheduleEntry.init now p.2.name none none)
      (get_all_periodic s.registry) s.schedule
  · intro k hk
    exact fold_setdefault_lookup_present
      (fun p => ScheduleEntry.init now p.2.name none none)
      (get_all_periodic s.registry) s.schedule k hk
  · intro k t hmem habs
    exact fold_setdefault_insert
      (fun p => ScheduleEntry.init now p.2.name none none)
      (get_all_periodic s.registry) s.schedule k t hnd2 hmem habs
  · exact Scheduler.ext_parts _ _ rfl hidem rfl

/-- C4 witness: reconciling `ex4` (one periodic task `"a"`, empty
schedule) inserts exactly one fresh entry, and a second call changes
nothing. -/
theorem C4_witness :
    lookupEntry (Scheduler.schedule_registry ex4 5).schedule "a" =
        some (ScheduleEntry.mk "a" 5 0) ∧
      keyCount (Scheduler.schedule_registry ex4 5).schedule "a" = 1 ∧
      Scheduler.schedule_registry (Scheduler.schedule_registry ex4 5) 5 =
        Scheduler.schedule_registry ex4 5 := by
  have h := C4_reconcile ex4 5 (by decide)
  obtain ⟨hl, hc⟩ := h.2.2.1 "a" exTask4
    (by simp [get_all_periodic, ex4, exTask4]) rfl
  exact ⟨hl, hc, h.2.2.2⟩

/-- C5: `Scheduler.cleanup` (prune() of the spec) keeps exactly the pairs
whose key is present in the registry — an entry is removed precisely when
its name is not registered — the result is a sublist of the original
schedule (kept entries are untouched), and a second call is the
identity. -/
theorem C5_prune (s : Scheduler) :
    (∀ p : String × ScheduleEntry,
        p ∈ (Scheduler.cleanup s).schedule ↔
          p ∈ s.schedule ∧ registryContains s.registry p.1 = true) ∧
    List.Sublist (Scheduler.cleanup s).schedule s.schedule ∧
    Scheduler.cleanup (Scheduler.cleanup s) = Scheduler.cleanup s := by
  refine ⟨?_, ?_, ?_⟩
  · intro p
    exact List.mem_filter
  · exact List.filter_sublist s.schedule
  · exact Scheduler.ext_parts _ _ rfl (filter_self_idem _ s.schedule) rfl

/-- C6: `ScheduleEntry.next` (advance() of the spec) returns a new entry
with the same name, the run count incremented by exactly one and
`last_run_at` set to the clock reading; under a monotone clock
(`e.last_run_at ≤ now`) the new `last_run_at` is not below the old one.
The operation is a pure function of the entry and the clock — it touches
no store. -/
theorem C6_advance (e : ScheduleEntry) (now : Nat) :
    (e.next now).name = e.name ∧
    (e.next now).total_run_count = e.total_run_count + 1 ∧
    (e.next now).last_run_at = now ∧
    (e.last_run_at ≤ now → e.last_run_at ≤ (e.next now).last_run_at) :=
  ⟨rfl, rfl, rfl, fun h => h⟩

/-- C6 witness: the advance of a concrete entry under a later clock. -/
theorem C6_witness :
    (ScheduleEntry.next (ScheduleEntry.mk "w" 2 5) 7).name = "w" ∧
    (ScheduleEntry.next (ScheduleEntry.mk "w" 2 5) 7).total_run_count = 6 ∧
    (ScheduleEntry.next (ScheduleEntry.mk "w" 2 5) 7).last_run_at = 7 ∧
    2 ≤ (ScheduleEntry.next (ScheduleEntry.mk "w" 2 5) 7).last_run_at := by
  obtain ⟨h1, h2, h3, h4⟩ := C6_advance (ScheduleEntry.mk "w" 2 5) 7
  exact ⟨h1, h2, h3, h4 (by decide)⟩

/-- C7: with a store whose sync and close calls succeed, every exit path
of `ClockService.start` — shutdown break, keyboard interrupt (which runs
the finalizer from both the except and the finally clause), or an
unhandled error — performs the finalization exactly once: one completed
sync, one completed close, the stopped flag set, and no exception
escaping; and the guard makes any further `_stop` invocation a no-op. -/
theorem C7_finalize_once (ex : ExitKind) :
    (ClockService.runFinalization true true ex initClock).1 =
        ClockState.mk true true 1 1 ∧
      (ClockService.runFinalization true true ex initClock).2 = false ∧
      ∀ so co : Bool,
        ClockService.stopOnce so co
            (ClockService.runFinalization true true ex initClock).1 =
          ((ClockService.runFinalization true true ex initClock).1, false) := by
  cases ex <;> exact ⟨rfl, rfl, fun so co => by cases so <;> cases co <;> rfl⟩

/-- C8, counterexample.  If `schedule.sync()` fails during finalization
(`syncOk = false`), the exception propagates before `self._stopped.set()`
is reached: the stopped flag stays clear, `start` raises, and a caller in
`stop(wait=true)` would block — the notification does not fire, contrary
to the claim. -/
theorem C8_counterexample :
    (ClockService.runFinalization false true ExitKind.shutdown initClock).1.stoppedSet
        = false ∧
      (ClockService.runFinalization false true ExitKind.shutdown initClock).2
        = true ∧
      ClockService.stopReturns true
          (ClockService.runFinalization false true ExitKind.shutdown initClock).1
        = false := by
  decide

/-- C8, amended.  When the sync or close of the store fails during shutdown
finalization, the stopped notification never fires — on every exit path
the stopped flag remains clear, so `stop(wait=true)` stays blocked — and
the failure escapes `start` (it is reported only as a propagating
exception). -/
theorem C8_sync_failure_blocks (ex : ExitKind) (so co : Bool)
    (h : so = false ∨ co = false) :
    (ClockService.runFinalization so co ex initClock).1.stoppedSet = false ∧
      (ClockService.runFinalization so co ex initClock).2 = true ∧
      ClockService.stopReturns true
          (ClockService.runFinalization so co ex initClock).1 = false := by
  rcases h with rfl | rfl
  · cases co <;> cases ex <;> decide
  · cases so <;> cases ex <;> decide

/-- C8 witness: the amended statement at a failing sync on the shutdown
path. -/
theorem C8_witness :
    (false = false ∨ true = (false : Bool)) ∧
      ((ClockService.runFinalization false true ExitKind.shutdown
            initClock).1.stoppedSet = false ∧
        (ClockService.runFinalization false true ExitKind.shutdown
            initClock).2 = true ∧
        ClockService.stopReturns true
            (ClockService.runFinalization false true ExitKind.shutdown
              initClock).1 = false) :=
  ⟨Or.inl rfl,
    C8_sync_failure_blocks ExitKind.shutdown false true (Or.inl rfl)⟩

/-- C9: whenever `stop(wait=true)` returns rather than blocks — the
stopped flag is set, after an arbitrary sequence of finalizer invocations
starting from the freshly opened store — the guard is set and at least
one sync and one close have completed on the store: the schedule is
flushed and closed before control returns to the caller. -/
theorem C9_stop_wait_flushed (steps : List (Bool × Bool))
    (h : ClockService.stopReturns true (runStops steps initClock) = true) :
    (runStops steps initClock).synced = true ∧
      1 ≤ (runStops steps initClock).syncs ∧
      1 ≤ (runStops steps initClock).closes := by
  have hstop : (runStops steps initClock).stoppedSet = true := by
    simpa [ClockService.stopReturns] using h
  exact runStops_invariant steps initClock (fun hc => Bool.noConfusion hc) hstop

/-- C9 witness: one successful finalizer invocation lets `stop(wait=true)`
return, with the store synced and closed. -/
theorem C9_witness :
    ClockService.stopReturns true (runStops [(true, true)] initClock) = true ∧
      (runStops [(true, true)] initClock).synced = true ∧
      1 ≤ (runStops [(true, true)] initClock).syncs ∧
      1 ≤ (runStops [(true, true)] initClock).closes :=
  ⟨rfl, C9_stop_wait_flushed [(true, true)] rfl⟩

theorem snapshot_unique (sch : Schedule) (hwf : wfSchedule sch)
    (hnd : nodupKeys sch) (p : String × ScheduleEntry) (hp : p ∈ sch)
    (e : ScheduleEntry) (he : e ∈ sch.map Prod.snd) (hname : e.name = p.1) :
    e = p.2 := by
  obtain ⟨q, hq, hqe⟩ := List.mem_map.mp he
  have hq1 : q.1 = p.1 := by rw [← hwf q hq, hqe, hname]
  have h1 := lookupEntry_of_mem_nodup sch q hnd hq
  have h2 := lookupEntry_of_mem_nodup sch p hnd hp
  rw [hq1] at h1
  have hqp : q.2 = p.2 := Option.some.inj (h1.symm.trans h2)
  rw [hqe] at hqp
  exact hqp

/-- C10: a `tick` pass — whether it completes or aborts on an exception —
neither adds nor removes schedule keys (over a well-formed schedule whose
entries sit under their own names, keys pairwise distinct); every entry
whose due check returned not-due is still stored unchanged; and every
entry is either untouched or (being due) replaced by its advanced
successor — the only mutation the pass performs. -/
theorem C10_frame (s : Scheduler) (now : Nat)
    (hwf : wfSchedule s.schedule) (hnd : nodupKeys s.schedule) :
    (tickFinal (Scheduler.tick s now)).schedule.map Prod.fst =
        s.schedule.map Prod.fst ∧
    (∀ p ∈ s.schedule, ∀ nt : Option Nat,
        Scheduler.is_due s.registry p.2 = Except.ok (false, nt) →
        lookupEntry (tickFinal (Scheduler.tick s now)).schedule p.1 =
          some p.2) ∧
    (∀ p ∈ s.schedule,
        lookupEntry (tickFinal (Scheduler.tick s now)).schedule p.1 =
            some p.2 ∨
          (dueBool s.registry p.2 = true ∧
            lookupEntry (tickFinal (Scheduler.tick s now)).schedule p.1 =
              some (p.2.next now))) := by
  rw [tickFinal_eq_stateOf]
  have hkeys : ∀ e ∈ s.schedule.map Prod.snd,
      hasKey (TickState.mk s.schedule [] []).schedule e.name = true := by
    intro e he
    obtain ⟨q, hq, hqe⟩ := List.mem_map.mp he
    show hasKey s.schedule e.name = true
    rw [← hqe, hwf q hq]
    exact hasKey_of_mem s.schedule q hq
  refine ⟨?_, ?_, ?_⟩
  · exact tickLoop_keys s.registry now (s.schedule.map Prod.snd)
      (TickState.mk s.schedule [] []) hkeys
  · intro p hp nt hdnt
    rcases tickLoop_lookup s.registry now (s.schedule.map Prod.snd)
        (TickState.mk s.schedule [] []) p.1 with h | ⟨e, he, hname, hdue, hl⟩
    · rw [h]
      exact lookupEntry_of_mem_nodup s.schedule p hnd hp
    · have he2 : e = p.2 := snapshot_unique s.schedule hwf hnd p hp e he hname
      rw [he2] at hdue
      rw [dueBool_of_is_due s.registry p.2 false nt hdnt] at hdue
      cases hdue
  · intro p hp
    rcases tickLoop_lookup s.registry now (s.schedule.map Prod.snd)
        (TickState.mk s.schedule [] []) p.1 with h | ⟨e, he, hname, hdue, hl⟩
    · left
      rw [h]
      exact lookupEntry_of_mem_nodup s.schedule p hnd hp
    · right
      have he2 : e = p.2 := snapshot_unique s.schedule hwf hnd p hp e he hname
      rw [he2] at hdue hl
      exact ⟨hdue, hl⟩

/-- C10 witness: in `ex10` the pass advances the due entry `"a"`, leaves
the not-due entry `"q"` untouched, and preserves the key set. -/
theorem C10_witness :
    (tickFinal (Scheduler.tick ex10 3)).schedule.map Prod.fst = ["a", "q"] ∧
      lookupEntry (tickFinal (Scheduler.tick ex10 3)).schedule "q" =
        some (ScheduleEntry.mk "q" 0 0) ∧
      (lookupEntry (tickFinal (Scheduler.tick ex10 3)).schedule "a" =
          some (ScheduleEntry.mk "a" 0 0) ∨
        (dueBool ex10.registry (ScheduleEntry.mk "a" 0 0) = true ∧
          lookupEntry (tickFinal (Scheduler.tick ex10 3)).schedule "a" =
            some (ScheduleEntry.mk "a" 3 1))) := by
  have h := C10_frame ex10 3 (by unfold wfSchedule; decide) (by unfold nodupKeys; decide)
  refine ⟨h.1, ?_, ?_⟩
  · exact h.2.1 ("q", ScheduleEntry.mk "q" 0 0) (by simp [ex10]) (some 3) rfl
  · exact h.2.2 ("a", ScheduleEntry.mk "a" 0 0) (by simp [ex10])
